import Mathlib

/-!
A shallow embedding of the core of the EVerest/zvt ZVT payment-terminal
driver, together with proofs about its codecs, dialog state machines and
the high-level Feig controller.

Bytes are modelled as `List Nat` (each entry a value `0 ≤ b < 256` where it
matters); machine integers are `Nat`. Fallible Rust functions return
`Except ZVTError` values; functions that may `panic!` (or hit an
out-of-bounds slice index) return a `RustResult`, whose `panic` constructor
marks the aborting executions.
-/

namespace Zvt

/-- The error enum of `zvt_builder/src/lib.rs` (`ZVTError`). Tags are
modelled as their numeric `u16` value. -/
inductive ZVTError where
  | IncompleteData : ZVTError
  | MissingRequiredTags : List Nat → ZVTError
  | NonImplemented : ZVTError
  | WrongTag : Nat → ZVTError
  | DuplicateTag : Nat → ZVTError
  | Aborted : Nat → ZVTError
deriving DecidableEq, Repr

/-- Outcome of a Rust computation that can also panic (e.g. by an
out-of-range slice index). `panic` has no payload: it models the abort of
the process. -/
inductive RustResult (α : Type) where
  | ok : α → RustResult α
  | err : ZVTError → RustResult α
  | panic : RustResult α
deriving DecidableEq, Repr

/-! ## The `Tlv` length codec (`zvt_builder/src/length.rs`, `impl Length for Tlv`) -/

/-- `Tlv::serialize` from `length.rs`: lengths `0..=127` are one byte,
`128..=255` are `0x81` plus the length byte, `256..=65535` are `0x82` plus
two big-endian bytes; anything larger hits the `panic!("Unsupported length")`
arm. -/
def tlvSerialize (len : Nat) : RustResult (List Nat) :=
  if len ≤ 127 then .ok [len]
  else if len ≤ 255 then .ok [0x81, len]
  else if len ≤ 65535 then .ok [0x82, len / 256, len % 256]
  else .panic

/-- `Tlv::deserialize` from `length.rs`. The `0x82` arm slices `data[1..3]`
before the `try_into`; in Rust this slice expression panics when fewer than
3 bytes are available, so the `map_err(|_| IncompleteData)` on the
`try_into` is unreachable. The model returns `panic` exactly there. -/
def tlvDeserialize (data : List Nat) : RustResult (Nat × List Nat) :=
  match data with
  | [] => .err .IncompleteData
  | d :: rest =>
    if d ≤ 127 then .ok (d, rest)
    else if d = 0x81 then
      match rest with
      | r :: rest2 => .ok (r, rest2)
      | [] => .err .IncompleteData
    else if d = 0x82 then
      match rest with
      | b1 :: b2 :: rest2 => .ok (b1 * 256 + b2, rest2)
      | _ => .panic
    else .err .NonImplemented

/-! ## Value encodings (`zvt_builder/src/encoding.rs`)

The `encoding` module itself is not part of the sources at hand (only its
declaration in `lib.rs`, its callers and its tests are), so the encodings
below are modelled from the specification and pinned by the repository's
tests in `zvt/tests/derive.rs`. -/

/-- Modelled from the spec: one packed-BCD byte for a two-digit value,
"high nibble first" (§4.2 `Bcd`). -/
def bcdByte (m : Nat) : Nat := 16 * (m / 10 % 10) + m % 10

/-- Helper for `bcdEncode`; the first argument is structural fuel (any
value at least the number of byte pairs, e.g. `n` itself, suffices: the
value shrinks by a factor of 100 in each step). -/
def bcdEncodeAux : Nat → Nat → List Nat
  | 0, n => [bcdByte n]
  | fuel + 1, n =>
    if n ≤ 99 then [bcdByte n]
    else bcdEncodeAux fuel (n / 100) ++ [bcdByte (n % 100)]

/-- Modelled from the spec: `Bcd::encode` for unsigned integers — packed
binary-coded decimal, high nibble first, using the minimal number of bytes
(one byte per two decimal digits). The width is pinned by the tests
`derive.rs`: `Bcd` encodes 12 as the single byte `0x12` and 2 as `0x02`. -/
def bcdEncode (n : Nat) : List Nat := bcdEncodeAux n n

/-- Modelled from the spec: `Bcd::decode` reads each nibble as a decimal
digit, multiplying the accumulator by 10 (§4.2 `Bcd`); it consumes the full
slice handed to it. -/
def bcdDecode (bytes : List Nat) : Nat :=
  bytes.foldl (fun acc b => acc * 100 + 10 * (b / 16 % 16) + b % 16) 0

/-- Modelled from the spec: `Default::encode` for `u16` — fixed-width
little-endian (§4.2 `Default`). -/
def u16LeEncode (n : Nat) : List Nat := [n % 256, n / 256 % 256]

/-! ## `PartialReversalReceiptNo` (`zvt/src/packets.rs`) -/

/-- `PartialReversalReceiptNo::encode` from `packets.rs`: the sentinel
`0xFFFF` is emitted as the little-endian `u16` literal `FF FF`; every other
value is BCD-encoded. -/
def prEncode (input : Nat) : List Nat :=
  if input = 0xffff then u16LeEncode input else bcdEncode input

/-- `PartialReversalReceiptNo::decode` from `packets.rs`: requires at least
2 bytes; the literal `FF FF` decodes via the little-endian `u16` codec to
`0xFFFF`, anything else decodes the first two bytes as BCD. -/
def prDecode (bytes : List Nat) : Except ZVTError (Nat × List Nat) :=
  if bytes.length < 2 then .error .IncompleteData
  else if bytes.take 2 = [0xff, 0xff] then
    .ok (bytes.headI + 256 * (bytes.tail.headI), bytes.drop 2)
  else
    .ok (bcdDecode (bytes.take 2), bytes.drop 2)

end Zvt

namespace Zvt

/-- C2: For the `Tlv` length codec the boundary lengths 0, 127, 128, 255,
256 and 65535 all round-trip through serialize/deserialize (with an empty
remainder), serializing 65536 panics, and deserializing any input whose
leading byte is `0x80` or lies in `0x83..=0xFE` returns `NonImplemented`. -/
theorem tlv_boundary_roundtrip_and_failures :
    (∀ n ∈ [0, 127, 128, 255, 256, 65535],
      ∃ bytes, tlvSerialize n = .ok bytes ∧ tlvDeserialize bytes = .ok (n, [])) ∧
    tlvSerialize 65536 = .panic ∧
    (∀ b rest, b = 0x80 ∨ (0x83 ≤ b ∧ b ≤ 0xFE) →
      tlvDeserialize (b :: rest) = .err .NonImplemented) := by
  refine ⟨?_, rfl, ?_⟩
  · intro n hn
    fin_cases hn <;> exact ⟨_, rfl, rfl⟩
  · intro b rest hb
    have h127 : ¬ b ≤ 127 := by omega
    have h81 : b ≠ 0x81 := by omega
    have h82 : b ≠ 0x82 := by omega
    simp [tlvDeserialize, h127, h81, h82]

/-- Witness for `tlv_boundary_roundtrip_and_failures`: instantiating the
quantified parts at 127 and at leading byte `0x90`. -/
theorem tlv_boundary_roundtrip_and_failures_witness :
    (∃ bytes, tlvSerialize 127 = .ok bytes ∧ tlvDeserialize bytes = .ok (127, [])) ∧
    tlvDeserialize [0x90, 1, 2] = .err .NonImplemented := by
  refine ⟨tlv_boundary_roundtrip_and_failures.1 127 (by decide), ?_⟩
  exact tlv_boundary_roundtrip_and_failures.2.2 0x90 [1, 2] (by omega)

/-- C9: evaluating `Tlv::deserialize` at the single byte `0x82` (and at
`[0x82, 0x00]`): the code reaches `data[1..3]` with fewer than 3 bytes
available and panics instead of returning `IncompleteData`. -/
theorem tlv_deserialize_0x82_short_input_panics :
    tlvDeserialize [0x82] = .panic ∧ tlvDeserialize [0x82, 0x00] = .panic := by
  exact ⟨rfl, rfl⟩

/-! ## Facts about the BCD encoding and `PartialReversalReceiptNo` -/

theorem bcdByte_div16 (m : Nat) (h : m ≤ 99) : bcdByte m / 16 % 16 = m / 10 := by
  unfold bcdByte; omega

theorem bcdByte_mod16 (m : Nat) : bcdByte m % 16 = m % 10 := by
  unfold bcdByte; omega

theorem bcdByte_le (m : Nat) : bcdByte m ≤ 153 := by
  unfold bcdByte; omega

theorem bcdDecode_pair (x y : Nat) :
    bcdDecode [x, y] = (10 * (x / 16 % 16) + x % 16) * 100 + 10 * (y / 16 % 16) + y % 16 := by
  simp [bcdDecode, List.foldl]

theorem bcdEncodeAux_le99 (fuel v : Nat) (hv : v ≤ 99) :
    bcdEncodeAux fuel v = [bcdByte v] := by
  cases fuel with
  | zero => rfl
  | succ f => simp [bcdEncodeAux, hv]

theorem bcdEncode_le99 (n : Nat) (h : n ≤ 99) : bcdEncode n = [bcdByte n] :=
  bcdEncodeAux_le99 n n h

theorem bcdEncode_le9999 (n : Nat) (h1 : 100 ≤ n) (h2 : n ≤ 9999) :
    bcdEncode n = [bcdByte (n / 100), bcdByte (n % 100)] := by
  have hn : ¬ n ≤ 99 := by omega
  have hd : n / 100 ≤ 99 := by omega
  obtain ⟨f, hf⟩ : ∃ f, n = f + 1 := ⟨n - 1, by omega⟩
  unfold bcdEncode
  rw [hf]
  simp only [bcdEncodeAux, hf ▸ hn, if_false]
  rw [bcdEncodeAux_le99 f ((f + 1) / 100) (hf ▸ hd)]
  rfl

theorem prDecode_cons (a b : Nat) (r : List Nat) (h : ¬(a = 255 ∧ b = 255)) :
    prDecode (a :: b :: r) = .ok (bcdDecode [a, b], r) := by
  have hne : ¬ ([a, b] : List Nat) = [255, 255] := by
    simp only [List.cons.injEq, and_true]
    tauto
  simp [prDecode, hne]

/-- C3 counterexample: `PartialReversalReceiptNo::encode` applied to 12
produces the single byte `0x12` (as pinned by the repository test
`zvt/tests/derive.rs`, which serializes 12 under the `Bcd` encoding to the
one-byte payload `0x12`), not a 2-byte BCD encoding; consequently the raw
decode of that encoding fails with `IncompleteData` instead of returning
12. -/
theorem prEncode_12_is_one_byte :
    prEncode 12 = [0x12] ∧ (prEncode 12).length ≠ 2 ∧
    prDecode (prEncode 12) = .error .IncompleteData := by
  refine ⟨rfl, by decide, rfl⟩

/-- C3 (amended): `encode 0xFFFF` yields the literal bytes `FF FF` and
`decode` maps them back to `0xFFFF`; for `n ≤ 9999`, `encode n` is the
minimal packed-BCD encoding — one byte when `n ≤ 99`, two bytes when
`100 ≤ n` — and decoding the 2-byte zero-padded form of that encoding
returns `n`. -/
theorem prEncode_prDecode_spec :
    prEncode 0xffff = [0xff, 0xff] ∧
    (∀ r, prDecode (0xff :: 0xff :: r) = .ok (0xffff, r)) ∧
    (∀ n, n ≤ 9999 →
      prEncode n = bcdEncode n ∧
      (prEncode n).length = (if n ≤ 99 then 1 else 2) ∧
      (∀ r, prDecode (List.replicate (2 - (prEncode n).length) 0 ++ (prEncode n ++ r)) =
        .ok (n, r))) := by
  refine ⟨rfl, ?_, ?_⟩
  · intro r
    have h1 : ¬ ((0xff :: 0xff :: r : List Nat).length < 2) := by
      simp [List.length_cons]
    have h2 : (0xff :: 0xff :: r : List Nat).take 2 = [0xff, 0xff] := rfl
    unfold prDecode
    rw [if_neg h1, if_pos h2]
    norm_num [List.headI]
  · intro n hn
    have hne : n ≠ 0xffff := by omega
    have henc : prEncode n = bcdEncode n := by simp [prEncode, hne]
    refine ⟨henc, ?_, ?_⟩
    · by_cases h99 : n ≤ 99
      · simp [henc, bcdEncode_le99 n h99, h99]
      · simp [henc, bcdEncode_le9999 n (by omega) hn, h99]
    · intro r
      by_cases h99 : n ≤ 99
      · have hb := bcdByte_le n
        rw [henc, bcdEncode_le99 n h99]
        simp only [List.length_cons, List.length_nil]
        rw [show (2 - 1 : Nat) = 1 from rfl]
        simp only [List.replicate, List.cons_append, List.nil_append]
        rw [prDecode_cons 0 (bcdByte n) r (by omega)]
        rw [bcdDecode_pair]
        congr 2
        rw [bcdByte_div16 n h99, bcdByte_mod16 n]
        omega
      · have h100 : 100 ≤ n := by omega
        have hd : n / 100 ≤ 99 := by omega
        have hb := bcdByte_le (n / 100)
        rw [henc, bcdEncode_le9999 n h100 hn]
        simp only [List.length_cons, List.length_nil]
        rw [show (2 - 2 : Nat) = 0 from rfl]
        simp only [List.replicate, List.nil_append, List.cons_append]
        rw [prDecode_cons (bcdByte (n / 100)) (bcdByte (n % 100)) r (by omega)]
        rw [bcdDecode_pair]
        congr 2
        rw [bcdByte_div16 (n / 100) hd, bcdByte_mod16 (n / 100),
          bcdByte_div16 (n % 100) (by omega), bcdByte_mod16 (n % 100)]
        omega

/-- Witness for `prEncode_prDecode_spec` at the sentinel with remainder
`[7]` and at the values 12 and 1234. -/
theorem prEncode_prDecode_spec_witness :
    prDecode (0xff :: 0xff :: [7]) = .ok (0xffff, [7]) ∧
    ((12 : Nat) ≤ 9999 ∧ prEncode 12 = bcdEncode 12 ∧
      (prEncode 12).length = (if (12 : Nat) ≤ 99 then 1 else 2) ∧
      prDecode (List.replicate (2 - (prEncode 12).length) 0 ++ (prEncode 12 ++ [5])) =
        .ok (12, [5])) ∧
    ((1234 : Nat) ≤ 9999 ∧ prEncode 1234 = bcdEncode 1234 ∧
      (prEncode 1234).length = (if (1234 : Nat) ≤ 99 then 1 else 2) ∧
      prDecode (List.replicate (2 - (prEncode 1234).length) 0 ++ (prEncode 1234 ++ [5])) =
        .ok (1234, [5])) := by
  refine ⟨prEncode_prDecode_spec.2.1 [7], ⟨by decide, ?_⟩, ⟨by decide, ?_⟩⟩
  · obtain ⟨h1, h2, h3⟩ := prEncode_prDecode_spec.2.2 12 (by decide)
    exact ⟨h1, h2, h3 [5]⟩
  · obtain ⟨h1, h2, h3⟩ := prEncode_prDecode_spec.2.2 1234 (by decide)
    exact ⟨h1, h2, h3 [5]⟩

/-! ## Dialog sequences (`zvt/src/sequences.rs`)

Each `into_stream` body is the same loop: read a frame, parse it, write an
`Ack`, yield the parsed packet, and break when the packet is terminal. A
parse (or transport) error is yielded through `try_stream!`'s `?` and ends
the stream. We model a sequence's stream as the function from the list of
successive parse results to the list of yielded items. -/

/-- The fields of `packets::StatusInformation` that the Feig controller
reads (the full packet has many more optional BMP fields, all decoded the
same way). -/
structure StatusInformation where
  amount : Option Nat
  trace_number : Option Nat
  time : Option Nat
  date : Option Nat
  terminal_id : Option Nat
  receipt_no : Option Nat
deriving DecidableEq, Repr

/-- `packets::PartialReversalAbort`: error code plus the optional receipt
number of a pending transaction. -/
structure PartialReversalAbortData where
  error : Nat
  receipt_no : Option Nat
deriving DecidableEq, Repr

/-- `sequences::ReadCardResponse`. -/
inductive ReadCardResponse where
  | intermediateStatusInformation : ReadCardResponse
  | statusInformation : StatusInformation → ReadCardResponse
  | abort : Nat → ReadCardResponse
deriving DecidableEq, Repr

/-- `sequences::EndOfDayResponse`. -/
inductive EndOfDayResponse where
  | intermediateStatusInformation : EndOfDayResponse
  | statusInformation : StatusInformation → EndOfDayResponse
  | printLine : String → EndOfDayResponse
  | printTextBlock : EndOfDayResponse
  | completionData : EndOfDayResponse
  | abort : PartialReversalAbortData → EndOfDayResponse
deriving DecidableEq, Repr

/-- The packets on which `ReadCard::into_stream` breaks out of its loop
(`StatusInformation(_) | Abort(_)`). -/
def ReadCardResponse.isTerminal : ReadCardResponse → Bool
  | .statusInformation _ => true
  | .abort _ => true
  | _ => false

/-- The packets on which `EndOfDay::into_stream` breaks out of its loop
(`CompletionData(_) | Abort(_)`). -/
def EndOfDayResponse.isTerminal : EndOfDayResponse → Bool
  | .completionData => true
  | .abort _ => true
  | _ => false

/-- The common loop shape of every `into_stream` in `sequences.rs`: yield
each parsed packet in wire order, stop after the first terminal packet, and
stop after yielding a parse/transport error. -/
def seqStream {R : Type} (isTerminal : R → Bool) :
    List (Except ZVTError R) → List (Except ZVTError R)
  | [] => []
  | .error e :: _ => [.error e]
  | .ok p :: rest =>
    if isTerminal p then [.ok p] else .ok p :: seqStream isTerminal rest

/-- `ReadCard::into_stream` (`sequences.rs`), as a function from parse
results to yielded items. -/
def readCardStream : List (Except ZVTError ReadCardResponse) →
    List (Except ZVTError ReadCardResponse) :=
  seqStream ReadCardResponse.isTerminal

/-- `EndOfDay::into_stream` (`sequences.rs`), as a function from parse
results to yielded items. -/
def endOfDayStream : List (Except ZVTError EndOfDayResponse) →
    List (Except ZVTError EndOfDayResponse) :=
  seqStream EndOfDayResponse.isTerminal

theorem seqStream_terminal_is_last {R : Type} (isT : R → Bool) :
    ∀ (input : List (Except ZVTError R)) (pre post : List (Except ZVTError R)) (p : R),
      seqStream isT input = pre ++ .ok p :: post → isT p = true → post = [] := by
  intro input
  induction input with
  | nil =>
    intro pre post p h _
    cases pre <;> simp [seqStream] at h
  | cons x rest ih =>
    intro pre post p h hp
    match x with
    | .error e =>
      simp only [seqStream] at h
      cases pre with
      | nil => simp at h
      | cons y pre' =>
        simp only [List.cons_append, List.cons.injEq] at h
        exact absurd h.2 (by simp)
    | .ok q =>
      simp only [seqStream] at h
      by_cases hq : isT q = true
      · rw [if_pos hq] at h
        cases pre with
        | nil =>
          simp only [List.nil_append, List.cons.injEq] at h
          exact h.2.symm
        | cons y pre' =>
          simp only [List.cons_append, List.cons.injEq] at h
          exact absurd h.2 (by simp)
      · rw [if_neg hq] at h
        cases pre with
        | nil =>
          simp only [List.nil_append, List.cons.injEq, Except.ok.injEq] at h
          exact absurd (h.1 ▸ hp) hq
        | cons y pre' =>
          simp only [List.cons_append, List.cons.injEq] at h
          exact ih pre' post p h.2 hp

/-- C6: once a terminal packet has been yielded, a sequence stream produces
no further items — shown for the two `into_stream` loops named by the spec:
`ReadCard` (terminal packets: `StatusInformation`, `Abort`) and `EndOfDay`
(terminal packets: `CompletionData`, `Abort`). -/
theorem sequence_stream_stops_after_terminal :
    (∀ (input pre post : List (Except ZVTError ReadCardResponse)) (p : ReadCardResponse),
      readCardStream input = pre ++ .ok p :: post →
      p.isTerminal = true → post = []) ∧
    (∀ (input pre post : List (Except ZVTError EndOfDayResponse)) (p : EndOfDayResponse),
      endOfDayStream input = pre ++ .ok p :: post →
      p.isTerminal = true → post = []) :=
  ⟨fun input pre post p h hp =>
      seqStream_terminal_is_last ReadCardResponse.isTerminal input pre post p h hp,
   fun input pre post p h hp =>
      seqStream_terminal_is_last EndOfDayResponse.isTerminal input pre post p h hp⟩

/-- Witness for `sequence_stream_stops_after_terminal`: a read-card dialog
consisting of an intermediate status followed by an abort, and an
end-of-day dialog consisting of a status information followed by a
completion; in both cases nothing follows the terminal item. -/
theorem sequence_stream_stops_after_terminal_witness :
    readCardStream [.ok .intermediateStatusInformation, .ok (.abort 0x6c),
        .ok .intermediateStatusInformation] =
      [.ok .intermediateStatusInformation] ++ .ok (.abort 0x6c) :: [] ∧
    ([] : List (Except ZVTError ReadCardResponse)) = [] ∧
    endOfDayStream [.ok .printTextBlock, .ok .completionData, .ok .printTextBlock] =
      [.ok .printTextBlock] ++ .ok .completionData :: [] ∧
    ([] : List (Except ZVTError EndOfDayResponse)) = [] := by
  have h1 : readCardStream [.ok .intermediateStatusInformation, .ok (.abort 0x6c),
      .ok .intermediateStatusInformation] =
      [.ok .intermediateStatusInformation] ++ .ok (.abort 0x6c) :: [] := by
    simp [readCardStream, seqStream, ReadCardResponse.isTerminal]
  have h2 : endOfDayStream [.ok .printTextBlock, .ok .completionData, .ok .printTextBlock] =
      [.ok .printTextBlock] ++ .ok .completionData :: [] := by
    simp [endOfDayStream, seqStream, EndOfDayResponse.isTerminal]
  exact ⟨h1, sequence_stream_stops_after_terminal.1 _ _ _ _ h1 rfl, h2,
    sequence_stream_stops_after_terminal.2 _ _ _ _ h2 rfl⟩

/-! ## The WriteFile firmware-update dialog (`zvt/src/feig/sequences.rs`)

`WriteFile::into_stream` first sends the file list (with Ack), then loops:
read a frame, parse it as a `WriteFileResponse`; on `CompletionData` or
`Abort` write an Ack, yield, and stop; on `RequestForData` unwrap
`tlv.file.{file_id,file_offset}` (any missing part is an `IncompleteData`
error which ends the stream), look the id up in the file table, read up to
`adpu_size` bytes at the offset, write a `WriteData` frame, and then yield
the request. We model the loop as a function from parse results to the
interleaved trace of transport writes and yielded items. -/

/-- `feig::packets::tlv::File`. -/
structure TlvFile where
  file_id : Option Nat
  file_offset : Option Nat
  file_size : Option Nat
  payload : Option (List Nat)
deriving DecidableEq, Repr

/-- `feig::packets::tlv::WriteData` (also the TLV body of
`RequestForData`). -/
structure WriteDataTlv where
  file : Option TlvFile
deriving DecidableEq, Repr

/-- `feig::packets::RequestForData`. -/
structure RequestForData where
  tlv : Option WriteDataTlv
deriving DecidableEq, Repr

/-- `feig::sequences::WriteFileResponse`. -/
inductive WriteFileResponse where
  | completionData : WriteFileResponse
  | requestForData : RequestForData → WriteFileResponse
  | abort : Nat → WriteFileResponse
deriving DecidableEq, Repr

/-- A frame written to the transport inside the WriteFile loop. -/
inductive WFFrame where
  | ack : WFFrame
  | writeData : TlvFile → WFFrame
deriving DecidableEq, Repr

/-- One observable action of the WriteFile loop: a transport write or an
item yielded to the caller. -/
inductive WFAction where
  | write : WFFrame → WFAction
  | yieldItem : Except ZVTError WriteFileResponse → WFAction
deriving Repr

/-- The loop of `WriteFile::into_stream`, as the trace of writes and
yields it performs on a given list of parse results. `files` is the map
from file id to file content built by `convert_dir` (plus the opened
files' bytes), `adpuSize` the read buffer size. -/
def writeFileLoop (files : Nat → Option (List Nat)) (adpuSize : Nat) :
    List (Except ZVTError WriteFileResponse) → List WFAction
  | [] => []
  | .error e :: _ => [.yieldItem (.error e)]
  | .ok p :: rest =>
    match p with
    | .completionData => [.write .ack, .yieldItem (.ok p)]
    | .abort _ => [.write .ack, .yieldItem (.ok p)]
    | .requestForData d =>
      match d.tlv with
      | none => [.yieldItem (.error .IncompleteData)]
      | some t =>
        match t.file with
        | none => [.yieldItem (.error .IncompleteData)]
        | some req =>
          match req.file_id with
          | none => [.yieldItem (.error .IncompleteData)]
          | some fid =>
            match req.file_offset with
            | none => [.yieldItem (.error .IncompleteData)]
            | some off =>
              match files fid with
              | none => [.yieldItem (.error .IncompleteData)]
              | some content =>
                .write (.writeData
                  ⟨some fid, some off, none, some ((content.drop off).take adpuSize)⟩) ::
                .yieldItem (.ok p) :: writeFileLoop files adpuSize rest

/-- The concrete file table used in the C5 counterexample: file id `0x23`
(`app1/update.tar.gz`) with a 5-byte content. -/
def cexFiles : Nat → Option (List Nat) :=
  fun fid => if fid = 0x23 then some [1, 2, 3, 4, 5] else none

/-- The concrete `RequestForData` used in the C5 counterexample: file id
`0x23`, offset 1. -/
def cexRequest : RequestForData :=
  ⟨some ⟨some ⟨some 0x23, some 1, none, none⟩⟩⟩

/-- C5 counterexample: on a well-formed `RequestForData`, the loop writes
the `WriteData` response frame to the transport first and yields the
request to the caller only afterwards — there is no pair of positions with
the yield strictly before the write, contradicting the claim that each
`RequestForData` is yielded before the response is written. -/
theorem writeFile_write_precedes_yield_cex :
    writeFileLoop cexFiles 2 [.ok (.requestForData cexRequest)] =
      [.write (.writeData ⟨some 0x23, some 1, none, some [2, 3]⟩),
       .yieldItem (.ok (.requestForData cexRequest))] ∧
    ¬ ∃ i j : Nat, i < j ∧
      (writeFileLoop cexFiles 2 [.ok (.requestForData cexRequest)])[i]? =
        some (.yieldItem (.ok (.requestForData cexRequest))) ∧
      (writeFileLoop cexFiles 2 [.ok (.requestForData cexRequest)])[j]? =
        some (.write (.writeData ⟨some 0x23, some 1, none, some [2, 3]⟩)) := by
  have htrace : writeFileLoop cexFiles 2 [.ok (.requestForData cexRequest)] =
      [.write (.writeData ⟨some 0x23, some 1, none, some [2, 3]⟩),
       .yieldItem (.ok (.requestForData cexRequest))] := by
    simp [writeFileLoop, cexFiles, cexRequest]
  refine ⟨htrace, ?_⟩
  rintro ⟨i, j, hij, hy, hw⟩
  rw [htrace] at hy hw
  match i, hy with
  | 0, hy => simp at hy
  | 1, _ =>
    match j, hw with
    | 0, _ => omega
    | 1, hw => simp at hw
    | (k + 2), hw => simp at hw
  | (k + 2), hy => simp at hy

/-- C5 (amended): in every trace of the WriteFile loop, a yielded
`RequestForData` is immediately *preceded* by the transport write of the
corresponding `WriteData` frame (file id and offset copied from the
request, payload the `adpu_size`-byte window of the file at that offset). -/
theorem writeFile_request_yield_follows_write
    (files : Nat → Option (List Nat)) (adpuSize : Nat)
    (input : List (Except ZVTError WriteFileResponse)) :
    ∀ (i : Nat) (d : RequestForData),
      (writeFileLoop files adpuSize input)[i]? =
        some (.yieldItem (.ok (.requestForData d))) →
      1 ≤ i ∧ ∃ fid off content,
        (d.tlv.bind (fun t => t.file)).bind (fun f => f.file_id) = some fid ∧
        (d.tlv.bind (fun t => t.file)).bind (fun f => f.file_offset) = some off ∧
        files fid = some content ∧
        (writeFileLoop files adpuSize input)[i - 1]? =
          some (.write (.writeData
            ⟨some fid, some off, none, some ((content.drop off).take adpuSize)⟩)) := by
  induction input with
  | nil => intro i d h; simp [writeFileLoop] at h
  | cons x rest ih =>
    intro i d h
    match x with
    | .error e =>
      rw [show writeFileLoop files adpuSize (.error e :: rest) =
        [.yieldItem (.error e)] from rfl] at h
      match i, h with
      | 0, h => simp at h
      | (k + 1), h => simp at h
    | .ok .completionData =>
      rw [show writeFileLoop files adpuSize (.ok .completionData :: rest) =
        [.write .ack, .yieldItem (.ok .completionData)] from rfl] at h
      match i, h with
      | 0, h => simp at h
      | 1, h => simp at h
      | (k + 2), h => simp at h
    | .ok (.abort e) =>
      rw [show writeFileLoop files adpuSize (.ok (.abort e) :: rest) =
        [.write .ack, .yieldItem (.ok (.abort e))] from rfl] at h
      match i, h with
      | 0, h => simp at h
      | 1, h => simp at h
      | (k + 2), h => simp at h
    | .ok (.requestForData q) =>
      match hq : q.tlv with
      | none =>
        rw [show writeFileLoop files adpuSize (.ok (.requestForData q) :: rest) =
          [.yieldItem (.error .IncompleteData)] from by
            simp [writeFileLoop, hq]] at h
        match i, h with
        | 0, h => simp at h
        | (k + 1), h => simp at h
      | some t =>
        match hf : t.file with
        | none =>
          rw [show writeFileLoop files adpuSize (.ok (.requestForData q) :: rest) =
            [.yieldItem (.error .IncompleteData)] from by
              simp [writeFileLoop, hq, hf]] at h
          match i, h with
          | 0, h => simp at h
          | (k + 1), h => simp at h
        | some req =>
          match hid : req.file_id with
          | none =>
            rw [show writeFileLoop files adpuSize (.ok (.requestForData q) :: rest) =
              [.yieldItem (.error .IncompleteData)] from by
                simp [writeFileLoop, hq, hf, hid]] at h
            match i, h with
            | 0, h => simp at h
            | (k + 1), h => simp at h
          | some fid =>
            match hoff : req.file_offset with
            | none =>
              rw [show writeFileLoop files adpuSize (.ok (.requestForData q) :: rest) =
                [.yieldItem (.error .IncompleteData)] from by
                  simp [writeFileLoop, hq, hf, hid, hoff]] at h
              match i, h with
              | 0, h => simp at h
              | (k + 1), h => simp at h
            | some off =>
              match hc : files fid with
              | none =>
                rw [show writeFileLoop files adpuSize (.ok (.requestForData q) :: rest) =
                  [.yieldItem (.error .IncompleteData)] from by
                    simp [writeFileLoop, hq, hf, hid, hoff, hc]] at h
                match i, h with
                | 0, h => simp at h
                | (k + 1), h => simp at h
              | some content =>
                have hstep : writeFileLoop files adpuSize (.ok (.requestForData q) :: rest) =
                    .write (.writeData ⟨some fid, some off, none,
                      some ((content.drop off).take adpuSize)⟩) ::
                    .yieldItem (.ok (.requestForData q)) ::
                    writeFileLoop files adpuSize rest := by
                  simp [writeFileLoop, hq, hf, hid, hoff, hc]
                rw [hstep] at h
                match i, h with
                | 0, h => simp at h
                | 1, h =>
                  simp only [List.getElem?_cons_succ, List.getElem?_cons_zero,
                    Option.some.injEq] at h
                  have hd : d = q := by
                    cases h with
                    | refl => rfl
                  refine ⟨by omega, fid, off, content, ?_, ?_, hc, ?_⟩
                  · rw [hd, hq]; simp [hf, hid]
                  · rw [hd, hq]; simp [hf, hoff]
                  · rw [hstep]; rfl
                | (k + 2), h =>
                  simp only [List.getElem?_cons_succ] at h
                  obtain ⟨hk, fid', off', content', h1, h2, h3, h4⟩ := ih k d h
                  refine ⟨by omega, fid', off', content', h1, h2, h3, ?_⟩
                  rw [hstep]
                  have : k + 2 - 1 = (k - 1) + 2 := by omega
                  rw [this]
                  simpa using h4

/-- Witness for `writeFile_request_yield_follows_write` at the concrete
counterexample trace: the request yielded at position 1 is preceded at
position 0 by the `WriteData` write for file `0x23`, offset 1. -/
theorem writeFile_request_yield_follows_write_witness :
    1 ≤ 1 ∧ ∃ fid off content,
      ((cexRequest.tlv.bind (fun t => t.file)).bind (fun f => f.file_id) = some fid) ∧
      ((cexRequest.tlv.bind (fun t => t.file)).bind (fun f => f.file_offset) = some off) ∧
      cexFiles fid = some content ∧
      (writeFileLoop cexFiles 2 [.ok (.requestForData cexRequest)])[1 - 1]? =
        some (.write (.writeData
          ⟨some fid, some off, none, some ((content.drop off).take 2)⟩)) :=
  writeFile_request_yield_follows_write cexFiles 2 [.ok (.requestForData cexRequest)] 1
    cexRequest (by simp [writeFileLoop, cexFiles, cexRequest])

/-! ## The Feig terminal controller (`zvt_feig_terminal/src/feig.rs`)

The controller owns a `HashMap<String, TransactionData>` of active
transactions. We model the map as an association list and each dialog the
controller drives as a list of stream items (`Ok(packet)` or `Err(_)`), so
the controller methods become pure state-transition functions. -/

/-- `ErrorMessages::ReceiverNotReady` from `zvt/src/constants.rs`. -/
def receiverNotReady : Nat := 0xa0

/-- `TransactionData` from `feig.rs`. -/
structure TransactionData where
  receipt_no : Nat
  pre_authorization_amount : Nat
deriving DecidableEq, Repr

/-- The controller's transactions map (`HashMap<String, TransactionData>`),
as an association list. -/
abbrev Transactions := List (String × TransactionData)

/-- `HashMap::get`. -/
def lookupTx (m : Transactions) (token : String) : Option TransactionData :=
  (m.find? (fun e => e.1 = token)).map (fun e => e.2)

/-- The map left behind by `HashMap::remove` (the returned value is
`lookupTx`). -/
def removeTx (m : Transactions) (token : String) : Transactions :=
  m.filter (fun e => ¬ e.1 = token)

/-- Errors surfaced by the controller: the protocol errors plus the
domain error used by the modelled methods (`Error::UnknownToken`). -/
inductive FeigError where
  | zvt : ZVTError → FeigError
  | unknownToken : String → FeigError
deriving DecidableEq, Repr

/-- `sequences::PartialReversalResponse` (shared by the `PartialReversal`
and `PreAuthReversal` sequences). -/
inductive PartialReversalResponse where
  | intermediateStatusInformation : PartialReversalResponse
  | statusInformation : StatusInformation → PartialReversalResponse
  | printLine : String → PartialReversalResponse
  | printTextBlock : PartialReversalResponse
  | completionData : PartialReversalResponse
  | partialReversalAbort : PartialReversalAbortData → PartialReversalResponse
deriving DecidableEq, Repr

/-- The response loop of `Feig::cancel_transaction_by_receipt_no`
(`feig.rs`): stream errors update the pending error and the loop continues;
`CompletionData` returns `Ok`; `PartialReversalAbort` bails with
`Aborted(code)`; every other packet is skipped; an exhausted stream returns
the pending error (initially `IncompleteData`). -/
def cancelByReceiptLoop (err : FeigError) :
    List (Except FeigError PartialReversalResponse) → Except FeigError Unit
  | [] => .error err
  | .error e :: rest => cancelByReceiptLoop e rest
  | .ok p :: rest =>
    match p with
    | .completionData => .ok ()
    | .partialReversalAbort d => .error (.zvt (.Aborted d.error))
    | _ => cancelByReceiptLoop err rest

/-- `Feig::cancel_transaction` (`feig.rs`): `self.transactions.remove(token)`
is called first; an absent token bails with `UnknownToken`; otherwise the
`PreAuthReversal` dialog for the stored receipt number runs (its stream
items are the `wireEvents` parameter) and its failure propagates with `?`
— after the removal. When no transactions remain, `end_of_day` runs; its
outcome is the `eodResult` parameter (its internal `cancel_pending` only
clears the already-empty map). Returns the result and the new map. -/
def cancel_transaction (st : Transactions) (token : String)
    (wireEvents : List (Except FeigError PartialReversalResponse))
    (eodResult : Except FeigError Unit) :
    Except FeigError Unit × Transactions :=
  match lookupTx st token with
  | none => (.error (.unknownToken token), st)
  | some _ =>
    let st' := removeTx st token
    match cancelByReceiptLoop (.zvt .IncompleteData) wireEvents with
    | .error e => (.error e, st')
    | .ok _ =>
      if st'.isEmpty then
        match eodResult with
        | .error e => (.error e, st')
        | .ok _ => (.ok (), st')
      else (.ok (), st')

/-- `zvt::packets::tlv::Bmp60`. -/
structure Bmp60 where
  bmp_prefix : String
  bmp_data : String
deriving DecidableEq, Repr

/-- `zvt::packets::tlv::PreAuthData`. -/
structure PreAuthData where
  bmp_data : Option Bmp60
deriving DecidableEq, Repr

/-- `zvt::packets::PartialReversal` — the request packet of the partial
reversal dialog. -/
structure PartialReversalPkt where
  receipt_no : Option Nat
  amount : Option Nat
  payment_type : Option Nat
  currency : Option Nat
  tlv : Option PreAuthData
deriving DecidableEq, Repr

/-- `format!("{:0w}", n)`: the decimal digits of `n`, left-padded with
zeros to width `w`. -/
def zeroPad (w : Nat) (n : Nat) : String :=
  String.mk (List.replicate (w - (toString n).length) '0') ++ toString n

/-- `TransactionSummary` from `feig.rs`. -/
structure TransactionSummary where
  terminal_id : Option String
  amount : Option Nat
  trace_number : Option Nat
  date : Option String
  time : Option String
deriving DecidableEq, Repr

/-- The `PartialReversal` request built by `Feig::commit_transaction`:
the stored receipt number, the configured currency, the saturating
difference `pre_authorization_amount - amount` (Nat subtraction), the
default payment type `0x40`, and the `BMP 0x60` token data with prefix
`"AC"`. -/
def commitRequest (currency : Nat) (token : String) (td : TransactionData)
    (amount : Nat) : PartialReversalPkt :=
  { receipt_no := some td.receipt_no
    amount := some (td.pre_authorization_amount - amount)
    payment_type := some 0x40
    currency := some currency
    tlv := some ⟨some ⟨"AC", token⟩⟩ }

/-- The response loop of `Feig::commit_transaction`: stream errors update
the pending error; `StatusInformation` overwrites the recorded status;
`PartialReversalAbort` bails with `Aborted(code)`; other packets are
logged/skipped; after the loop `status_information.ok_or(error)?` either
returns the last status or fails with the pending error. -/
def commitLoop (err : FeigError) (status : Option StatusInformation) :
    List (Except FeigError PartialReversalResponse) →
    Except FeigError StatusInformation
  | [] =>
    match status with
    | none => .error err
    | some s => .ok s
  | .error e :: rest => commitLoop e status rest
  | .ok p :: rest =>
    match p with
    | .statusInformation s => commitLoop err (some s) rest
    | .partialReversalAbort d => .error (.zvt (.Aborted d.error))
    | _ => commitLoop err status rest

/-- `Feig::commit_transaction` (`feig.rs`): look the token up (absent →
`UnknownToken`); build the `PartialReversal` request; run the dialog; if no
terminal `StatusInformation` was obtained, bail *before* removing the token
so the caller can retry; otherwise remove the token (the opportunistic
`end_of_day` that runs on an empty map has its result ignored and does not
change the map) and return the summary. The returned triple is
(result, new map, request sent — `none` when the token was unknown). -/
def commit_transaction (st : Transactions) (currency : Nat) (token : String)
    (amount : Nat) (events : List (Except FeigError PartialReversalResponse)) :
    Except FeigError TransactionSummary × Transactions × Option PartialReversalPkt :=
  match lookupTx st token with
  | none => (.error (.unknownToken token), st, none)
  | some td =>
    let request := commitRequest currency token td amount
    match commitLoop (.zvt .IncompleteData) none events with
    | .error e => (.error e, st, some request)
    | .ok s =>
      (.ok { terminal_id := s.terminal_id.map toString
             amount := s.amount
             trace_number := s.trace_number
             date := s.date.map (zeroPad 4)
             time := s.time.map (zeroPad 6) },
       removeTx st token, some request)

/-- The response loop of `Feig::end_of_day` (`feig.rs`): `CompletionData`
returns `Ok`; an `Abort` whose code is `ReceiverNotReady` (`0xA0`) is
swallowed and also returns `Ok`; any other `Abort` bails with
`Aborted(code)`; everything else is skipped; an exhausted stream returns
the pending error. -/
def endOfDayLoop (err : FeigError) :
    List (Except FeigError EndOfDayResponse) → Except FeigError Unit
  | [] => .error err
  | .error e :: rest => endOfDayLoop e rest
  | .ok p :: rest =>
    match p with
    | .completionData => .ok ()
    | .abort d =>
      if d.error = receiverNotReady then .ok ()
      else .error (.zvt (.Aborted d.error))
    | _ => endOfDayLoop err rest

/-- `Feig::end_of_day` (`feig.rs`): with the sentinel terminal id 0 it
returns early; otherwise `cancel_pending` runs first (its outcome is a
parameter) and then the `EndOfDay` dialog loop. -/
def end_of_day (terminalId : Nat) (cancelPending : Except FeigError Unit)
    (events : List (Except FeigError EndOfDayResponse)) : Except FeigError Unit :=
  if terminalId = 0 then .ok ()
  else
    match cancelPending with
    | .error e => .error e
    | .ok _ => endOfDayLoop (.zvt .IncompleteData) events

/-- Stream items of the end-of-day dialog that neither terminate the loop
nor bail: errors (which only update the pending error) and non-terminal
packets. -/
def eodNonDecisive : Except FeigError EndOfDayResponse → Bool
  | .error _ => true
  | .ok .completionData => false
  | .ok (.abort _) => false
  | .ok _ => true

/-! ## Controller theorems -/

theorem lookupTx_removeTx (st : Transactions) (token : String) :
    lookupTx (removeTx st token) token = none := by
  simp only [lookupTx, removeTx, Option.map_eq_none']
  rw [List.find?_eq_none]
  intro x hx
  have h := List.of_mem_filter hx
  simp at h ⊢
  exact h

/-- C1 counterexample: a controller knowing the single token `"t"` whose
`PreAuthReversal` dialog fails on the wire (the terminal answers with a
`PartialReversalAbort`, code `0xB5` "reversal not possible"):
`cancel_transaction` returns the error, yet the token is *gone* from the
transactions map — contradicting the claim that a failed wire cancel
leaves the token in the map. -/
theorem cancel_transaction_wire_failure_cex :
    (cancel_transaction [("t", ⟨17, 1000⟩)] "t"
      [.ok (.partialReversalAbort ⟨0xb5, none⟩)] (.ok ())).1 =
      .error (.zvt (.Aborted 0xb5)) ∧
    lookupTx (cancel_transaction [("t", ⟨17, 1000⟩)] "t"
      [.ok (.partialReversalAbort ⟨0xb5, none⟩)] (.ok ())).2 "t" = none := by
  constructor <;> rfl

/-- C1 (amended): for every token present in the transactions map,
`cancel_transaction(token)` removes the token *unconditionally* — the
removal happens before the `PreAuthReversal` dialog is even issued — so
the token is absent afterwards whether or not the wire cancel succeeded; a
wire failure is still reported as the returned error. -/
theorem cancel_transaction_removes_unconditionally
    (st : Transactions) (token : String) (td : TransactionData)
    (wireEvents : List (Except FeigError PartialReversalResponse))
    (eodResult : Except FeigError Unit)
    (h : lookupTx st token = some td) :
    (cancel_transaction st token wireEvents eodResult).2 = removeTx st token ∧
    lookupTx (cancel_transaction st token wireEvents eodResult).2 token = none ∧
    (∀ e, cancelByReceiptLoop (.zvt .IncompleteData) wireEvents = .error e →
      (cancel_transaction st token wireEvents eodResult).1 = .error e) := by
  have hmap : (cancel_transaction st token wireEvents eodResult).2 = removeTx st token := by
    unfold cancel_transaction
    rw [h]
    cases hc : cancelByReceiptLoop (.zvt .IncompleteData) wireEvents with
    | error e => rfl
    | ok _ =>
      by_cases he : (removeTx st token).isEmpty
      · cases eodResult <;> simp [he]
      · simp [he]
  refine ⟨hmap, hmap ▸ lookupTx_removeTx st token, ?_⟩
  intro e he
  unfold cancel_transaction
  rw [h, he]

/-- Witness for `cancel_transaction_removes_unconditionally`: the token
`"t"` with a failing wire cancel. -/
theorem cancel_transaction_removes_unconditionally_witness :
    (cancel_transaction [("t", ⟨17, 1000⟩)] "t"
        [.ok (.partialReversalAbort ⟨0xb5, none⟩)] (.ok ())).2 =
      removeTx [("t", ⟨17, 1000⟩)] "t" ∧
    lookupTx (cancel_transaction [("t", ⟨17, 1000⟩)] "t"
        [.ok (.partialReversalAbort ⟨0xb5, none⟩)] (.ok ())).2 "t" = none ∧
    (cancel_transaction [("t", ⟨17, 1000⟩)] "t"
        [.ok (.partialReversalAbort ⟨0xb5, none⟩)] (.ok ())).1 =
      .error (.zvt (.Aborted 0xb5)) := by
  obtain ⟨h1, h2, h3⟩ := cancel_transaction_removes_unconditionally
    [("t", ⟨17, 1000⟩)] "t" ⟨17, 1000⟩
    [.ok (.partialReversalAbort ⟨0xb5, none⟩)] (.ok ()) rfl
  exact ⟨h1, h2, h3 (.zvt (.Aborted 0xb5)) rfl⟩

/-- C4: for every token known to the controller,
`commit_transaction(token, amount)` sends a `PartialReversal` whose amount
is the saturating difference `pre_authorization_amount - amount` (equal to
the exact difference when `amount ≤ pre_authorization_amount` and zero
otherwise), and whenever the dialog fails — no terminal
`StatusInformation` obtained (stream exhausted or aborted) — the
transactions map is left unchanged, so the token remains for a retry. -/
theorem commit_transaction_amount_and_failure_keeps_token
    (st : Transactions) (currency : Nat) (token : String) (amount : Nat)
    (events : List (Except FeigError PartialReversalResponse))
    (td : TransactionData) (h : lookupTx st token = some td) :
    (commit_transaction st currency token amount events).2.2 =
      some (commitRequest currency token td amount) ∧
    (commitRequest currency token td amount).amount =
      some (if amount ≤ td.pre_authorization_amount
            then td.pre_authorization_amount - amount else 0) ∧
    (∀ e, (commit_transaction st currency token amount events).1 = .error e →
      (commit_transaction st currency token amount events).2.1 = st) := by
  refine ⟨?_, ?_, ?_⟩
  · unfold commit_transaction
    rw [h]
    cases commitLoop (.zvt .IncompleteData) none events <;> rfl
  · unfold commitRequest
    simp only [Option.some.injEq]
    split <;> omega
  · intro e he
    unfold commit_transaction at he ⊢
    rw [h] at he ⊢
    cases hc : commitLoop (.zvt .IncompleteData) none events with
    | error e2 => rfl
    | ok s => rw [hc] at he; exact absurd he (by simp)

/-- Witness for `commit_transaction_amount_and_failure_keeps_token`: token
`"t"` with a 1000-cent pre-authorization committed at 300 while the dialog
aborts; the request carries amount 700 and the map is unchanged. -/
theorem commit_transaction_amount_and_failure_keeps_token_witness :
    (commit_transaction [("t", ⟨17, 1000⟩)] 978 "t" 300
        [.ok (.partialReversalAbort ⟨0xb8, none⟩)]).2.2 =
      some (commitRequest 978 "t" ⟨17, 1000⟩ 300) ∧
    (commitRequest 978 "t" ⟨17, 1000⟩ 300).amount =
      some (if 300 ≤ 1000 then 1000 - 300 else 0) ∧
    (commit_transaction [("t", ⟨17, 1000⟩)] 978 "t" 300
        [.ok (.partialReversalAbort ⟨0xb8, none⟩)]).2.1 = [("t", ⟨17, 1000⟩)] := by
  obtain ⟨h1, h2, h3⟩ := commit_transaction_amount_and_failure_keeps_token
    [("t", ⟨17, 1000⟩)] 978 "t" 300
    [.ok (.partialReversalAbort ⟨0xb8, none⟩)] ⟨17, 1000⟩ rfl
  exact ⟨h1, h2, h3 (.zvt (.Aborted 0xb8)) rfl⟩

theorem endOfDayLoop_abort (err : FeigError)
    (pre : List (Except FeigError EndOfDayResponse))
    (d : PartialReversalAbortData) (rest : List (Except FeigError EndOfDayResponse))
    (hpre : ∀ y ∈ pre, eodNonDecisive y = true) :
    endOfDayLoop err (pre ++ .ok (.abort d) :: rest) =
      if d.error = receiverNotReady then .ok ()
      else .error (.zvt (.Aborted d.error)) := by
  induction pre generalizing err with
  | nil => simp [endOfDayLoop]
  | cons y pre ih =>
    have hy := hpre y (by simp)
    have hrest : ∀ z ∈ pre, eodNonDecisive z = true :=
      fun z hz => hpre z (by simp [hz])
    match y with
    | .error e =>
      simp only [List.cons_append, endOfDayLoop]
      exact ih e hrest
    | .ok .intermediateStatusInformation =>
      simp only [List.cons_append, endOfDayLoop]
      exact ih err hrest
    | .ok (.statusInformation s) =>
      simp only [List.cons_append, endOfDayLoop]
      exact ih err hrest
    | .ok (.printLine t) =>
      simp only [List.cons_append, endOfDayLoop]
      exact ih err hrest
    | .ok .printTextBlock =>
      simp only [List.cons_append, endOfDayLoop]
      exact ih err hrest
    | .ok .completionData => simp [eodNonDecisive] at hy
    | .ok (.abort d2) => simp [eodNonDecisive] at hy

/-- C7: when the end-of-day dialog of `Feig::end_of_day` answers with an
`Abort` (after any number of non-decisive items), the abort is swallowed
and the method returns success exactly when the error code is
`ReceiverNotReady` (`0xA0`); any other code makes the method return
`Aborted(code)`. -/
theorem end_of_day_abort_handling
    (tid : Nat) (htid : tid ≠ 0)
    (pre rest : List (Except FeigError EndOfDayResponse))
    (d : PartialReversalAbortData)
    (hpre : ∀ y ∈ pre, eodNonDecisive y = true) :
    end_of_day tid (.ok ()) (pre ++ .ok (.abort d) :: rest) =
      if d.error = receiverNotReady then .ok ()
      else .error (.zvt (.Aborted d.error)) := by
  unfold end_of_day
  rw [if_neg htid]
  exact endOfDayLoop_abort _ pre d rest hpre

/-- Witness for `end_of_day_abort_handling`: terminal id 1; an abort with
code `0xA0` after a print line is swallowed, an abort with code `0xB5` is
returned as `Aborted(0xB5)`. -/
theorem end_of_day_abort_handling_witness :
    end_of_day 1 (.ok ()) ([.ok (.printLine "x")] ++ .ok (.abort ⟨0xa0, none⟩) :: []) =
      (if (0xa0 : Nat) = receiverNotReady then (.ok () : Except FeigError Unit)
       else .error (.zvt (.Aborted 0xa0))) ∧
    end_of_day 1 (.ok ()) ([] ++ .ok (.abort ⟨0xb5, some 3⟩) :: []) =
      (if (0xb5 : Nat) = receiverNotReady then (.ok () : Except FeigError Unit)
       else .error (.zvt (.Aborted 0xb5))) := by
  constructor
  · exact end_of_day_abort_handling 1 (by omega) [.ok (.printLine "x")] [] ⟨0xa0, none⟩
      (by intro y hy; simp at hy; subst hy; rfl)
  · exact end_of_day_abort_handling 1 (by omega) [] [] ⟨0xb5, some 3⟩
      (by intro y hy; simp at hy)

/-! ## The derived packet decoder (`zvt_derive/src/lib.rs`, `derive_deserialize`)

The `Zvt` derive macro generates, for every struct, a decoder with the
same shape: first the positional (untagged) fields in declaration order,
then a loop over the remaining bytes that decodes a tag, matches it
against the struct's tagged fields, rejects duplicates
(`DuplicateTag`), removes seen tags from the required set, and calls the
field's deserializer (whose `?`-failure propagates). The loop stops when
the input is empty, when no progress was made, when the tag cannot be
decoded, or when the tag is unknown. Afterwards a non-empty required set
is reported as `MissingRequiredTags`, sorted ascending by
`sort_by_key(|t| t.0)`. We embed the generated code generically: a packet
is a positional-prefix decoder plus a table of tagged-field descriptors;
field values are abstracted away (each field deserializer reports how many
bytes it consumed — in Rust it returns a suffix of its input). -/

/-- Modelled from the spec: `Default::decode` for `Tag` — the decoder
inspects the first byte; tags whose low 5 bits are all ones (`0x1F`) are
2-byte big-endian tags, all others 1-byte tags (§4.2). -/
def tagDecode : List Nat → Except ZVTError Nat
  | [] => .error .IncompleteData
  | b :: rest =>
    if b % 32 = 31 then
      match rest with
      | b2 :: _ => .ok (b * 256 + b2)
      | [] => .error .IncompleteData
    else .ok b

/-- A tagged field of a derived struct: its tag (the `#number`), whether
it is required (not `Option`/`Vec`), and its deserializer, reported as the
number of bytes it consumes from the buffer (which still starts with the
tag) or an error. -/
structure TaggedField where
  tag : Nat
  required : Bool
  fdecode : List Nat → Except ZVTError Nat

set_option linter.unusedVariables false in
/-- The `while !bytes.is_empty() && curr_len != bytes.len()` loop of the
generated `decode`: returns the final required set, the seen set and the
remaining bytes on the graceful exits (`break` on tag-decode failure or
unknown tag, loop-condition exit), and propagates `DuplicateTag` and field
deserialization errors. -/
def tagLoop (fields : List TaggedField) (bytes : List Nat) (prevLen : Nat)
    (required seen : List Nat) :
    Except ZVTError (List Nat × List Nat × List Nat) :=
  if hstop : bytes.isEmpty ∨ bytes.length = prevLen then .ok (required, seen, bytes)
  else
    match tagDecode bytes with
    | .error _ => .ok (required, seen, bytes)
    | .ok t =>
      match fields.find? (fun f => f.tag = t) with
      | none => .ok (required, seen, bytes)
      | some f =>
        if t ∈ seen then .error (.DuplicateTag t)
        else
          match f.fdecode bytes with
          | .error e => .error e
          | .ok k =>
            tagLoop fields (bytes.drop k) bytes.length
              (required.filter (fun x => x ≠ t)) (t :: seen)
termination_by bytes.length + (if bytes.length = prevLen then 0 else 1)
decreasing_by
  push_neg at hstop
  have hne : bytes ≠ [] := by
    intro hcon
    simp [hcon] at hstop
  have hlen : 1 ≤ bytes.length := List.length_pos.mpr hne
  have h2 := hstop.2
  simp only [List.length_drop, if_neg h2]
  split <;> omega

/-- The initial required set: the tags of the non-optional tagged
fields. -/
def requiredTags (fields : List TaggedField) : List Nat :=
  (fields.filter (fun f => f.required)).map (fun f => f.tag)

/-- The generated `decode` function: positional prefix, tag loop (whose
initial `curr_len` is `bytes.len() + 1`), then the missing-required-tags
check with the ascending sort. The struct value itself is abstracted: on
success the remaining bytes are returned. -/
def genericDecode (posDecode : List Nat → Except ZVTError (List Nat))
    (fields : List TaggedField) (bytes : List Nat) :
    Except ZVTError (List Nat) :=
  match posDecode bytes with
  | .error e => .error e
  | .ok bytes1 =>
    match tagLoop fields bytes1 (bytes1.length + 1) (requiredTags fields) [] with
    | .error e => .error e
    | .ok (req2, _, rest) =>
      if req2 = [] then .ok rest
      else .error (.MissingRequiredTags (List.insertionSort (fun a b => a ≤ b) req2))

theorem tagLoop_invariant (fields : List TaggedField)
    (bytes : List Nat) (prevLen : Nat) (req seen : List Nat) :
    ∀ req2 seen2 rest, (∀ t ∈ req, t ∉ seen) →
      tagLoop fields bytes prevLen req seen = .ok (req2, seen2, rest) →
      (∀ t ∈ seen, t ∈ seen2) ∧ req2 = req.filter (fun t => t ∉ seen2) := by
  induction bytes, prevLen, req, seen using tagLoop.induct fields with
  | case1 bytes prevLen req seen hstop =>
    intro req2 seen2 rest hpre h
    rw [tagLoop, dif_pos hstop] at h
    obtain ⟨h1, h2, h3⟩ : req = req2 ∧ seen = seen2 ∧ bytes = rest := by
      simpa using h
    subst h1; subst h2
    refine ⟨fun t ht => ht, ?_⟩
    rw [eq_comm, List.filter_eq_self]
    intro a ha
    simpa using hpre a ha
  | case2 bytes prevLen req seen hstop e he =>
    intro req2 seen2 rest hpre h
    rw [tagLoop, dif_neg hstop] at h
    rw [he] at h
    obtain ⟨h1, h2, h3⟩ : req = req2 ∧ seen = seen2 ∧ bytes = rest := by
      simpa using h
    subst h1; subst h2
    refine ⟨fun t ht => ht, ?_⟩
    rw [eq_comm, List.filter_eq_self]
    intro a ha
    simpa using hpre a ha
  | case3 bytes prevLen req seen hstop t ht hfind =>
    intro req2 seen2 rest hpre h
    rw [tagLoop, dif_neg hstop] at h
    simp only [ht, hfind] at h
    obtain ⟨h1, h2, h3⟩ : req = req2 ∧ seen = seen2 ∧ bytes = rest := by
      simpa using h
    subst h1; subst h2
    refine ⟨fun t ht => ht, ?_⟩
    rw [eq_comm, List.filter_eq_self]
    intro a ha
    simpa using hpre a ha
  | case4 bytes prevLen req seen hstop t ht f hfind hseen =>
    intro req2 seen2 rest hpre h
    rw [tagLoop, dif_neg hstop] at h
    simp only [ht, hfind, if_pos hseen] at h
    simp at h
  | case5 bytes prevLen req seen hstop t ht f hfind hseen e he =>
    intro req2 seen2 rest hpre h
    rw [tagLoop, dif_neg hstop] at h
    simp only [ht, hfind, if_neg hseen, he] at h
    simp at h
  | case6 bytes prevLen req seen hstop t ht f hfind hseen k hk ih =>
    intro req2 seen2 rest hpre h
    rw [tagLoop, dif_neg hstop] at h
    simp only [ht, hfind, if_neg hseen, hk] at h
    have hpre2 : ∀ a ∈ req.filter (fun x => x ≠ t), a ∉ (t :: seen) := by
      intro a ha
      have hmem := List.of_mem_filter ha
      have hmem2 := List.mem_of_mem_filter ha
      simp at hmem
      simp [hmem]
      exact hpre a hmem2
    obtain ⟨hsub, hfilter⟩ := ih req2 seen2 rest hpre2 h
    refine ⟨fun a ha => hsub a (by simp [ha]), ?_⟩
    rw [hfilter, List.filter_filter]
    congr 1
    funext a
    by_cases hat : a = t
    · subst hat
      have hmem : a ∈ seen2 := hsub a (by simp)
      simp [hmem]
    · simp [hat]

/-- C8: for every derived packet decoder (any positional prefix and any
tagged-field table), whenever the tag loop runs to one of its graceful
exits with required tags still missing, `decode` returns
`MissingRequiredTags v` where `v` is sorted ascending, non-empty, and
contains exactly the required tags that were never seen during the
loop. -/
theorem derived_decode_missing_required_sorted
    (posDecode : List Nat → Except ZVTError (List Nat))
    (fields : List TaggedField) (bytes bytes1 : List Nat)
    (req2 seen2 rest : List Nat)
    (hpos : posDecode bytes = .ok bytes1)
    (hloop : tagLoop fields bytes1 (bytes1.length + 1) (requiredTags fields) [] =
      .ok (req2, seen2, rest))
    (hne : req2 ≠ []) :
    ∃ v, genericDecode posDecode fields bytes = .error (.MissingRequiredTags v) ∧
      v.Sorted (fun a b => a ≤ b) ∧
      (∀ t, t ∈ v ↔ t ∈ requiredTags fields ∧ t ∉ seen2) ∧ v ≠ [] := by
  refine ⟨List.insertionSort (fun a b => a ≤ b) req2, ?_, ?_, ?_, ?_⟩
  · unfold genericDecode
    simp only [hpos, hloop]
    rw [if_neg hne]
  · exact List.sorted_insertionSort _ _
  · intro t
    rw [(List.perm_insertionSort _ req2).mem_iff]
    obtain ⟨_, hfilter⟩ := tagLoop_invariant fields bytes1 _ _ [] req2 seen2 rest
      (by simp) hloop
    rw [hfilter]
    simp [List.mem_filter]
  · intro hcon
    have hlen := (List.perm_insertionSort (fun a b => a ≤ b) req2).length_eq
    rw [hcon] at hlen
    exact hne (List.eq_nil_of_length_eq_zero hlen.symm)

/-- The field table of the C8 witness, mirroring the struct `Foo` of the
repository test `test_tagged_but_optional_but_still_tagged`: a required
`u16` at tag `0x11` and an optional `u16` at tag `0x12`, each consuming
tag plus two little-endian bytes. -/
def witnessFields : List TaggedField :=
  [⟨0x11, true, fun _ => .ok 3⟩, ⟨0x12, false, fun _ => .ok 3⟩]

/-- Witness for `derived_decode_missing_required_sorted`: decoding the
test input `[0x12, 0, 0]` (only the optional field present) misses the
required tag `0x11` and fails with `MissingRequiredTags [0x11]`, matching
the repository test. -/
theorem derived_decode_missing_required_sorted_witness :
    (∃ v, genericDecode (fun b => .ok b) witnessFields [0x12, 0, 0] =
        .error (.MissingRequiredTags v) ∧
      v.Sorted (fun a b => a ≤ b) ∧
      (∀ t, t ∈ v ↔ t ∈ requiredTags witnessFields ∧ t ∉ [0x12]) ∧ v ≠ []) ∧
    genericDecode (fun b => .ok b) witnessFields [0x12, 0, 0] =
      .error (.MissingRequiredTags [0x11]) := by
  have hloop : tagLoop witnessFields [0x12, 0, 0] 4 (requiredTags witnessFields) [] =
      .ok ([0x11], [0x12], []) := by
    rw [tagLoop]
    norm_num [tagDecode, witnessFields, List.find?, requiredTags, List.filter]
    rw [tagLoop]
    norm_num
  refine ⟨derived_decode_missing_required_sorted (fun b => .ok b) witnessFields
    [0x12, 0, 0] [0x12, 0, 0] [0x11] [0x12] [] rfl hloop (by simp), ?_⟩
  unfold genericDecode
  have h4 : ([0x12, 0, 0] : List Nat).length + 1 = 4 := rfl
  simp only [h4, hloop]
  norm_num

/-! ## `ZvtEnum` command parsing (`zvt_derive/src/lib.rs`, `zvt_enum`)

The `ZvtEnum` derive generates `zvt_parse`: reject inputs shorter than 2
bytes with `IncompleteData`, then dispatch on the `(class, instr)` pair of
the first two bytes to the variant's deserializer, falling back to
`WrongTag(Tag(0))`. We embed it generically over the variant table. -/

/-- The generated `zvt_parse` for a command enum whose variants are given
as a `(class, instr) ↦ deserializer` table. -/
def zvtEnumParse {α : Type} (table : List ((Nat × Nat) × (List Nat → Except ZVTError α)))
    (bytes : List Nat) : Except ZVTError α :=
  if bytes.length < 2 then .error .IncompleteData
  else
    match table.find? (fun e => e.1 = (bytes.headI, bytes.tail.headI)) with
    | some e => e.2 bytes
    | none => .error (.WrongTag 0)

/-- C10: for every command enum generated by `ZvtEnum`, parsing a buffer
of fewer than 2 bytes returns `IncompleteData` (in particular not
`WrongTag`, and the parse is total — no panic). -/
theorem zvt_enum_parse_short_input {α : Type}
    (table : List ((Nat × Nat) × (List Nat → Except ZVTError α)))
    (bytes : List Nat) (h : bytes.length < 2) :
    zvtEnumParse table bytes = .error .IncompleteData := by
  unfold zvtEnumParse
  rw [if_pos h]

/-- Witness for `zvt_enum_parse_short_input`: a one-byte buffer against a
one-variant table (class `0x06`, instr `0x0F`, `CompletionData`). -/
theorem zvt_enum_parse_short_input_witness :
    ([0x80] : List Nat).length < 2 ∧
    zvtEnumParse [((0x06, 0x0f), fun _ => (.ok 0 : Except ZVTError Nat))] [0x80] =
      .error .IncompleteData :=
  ⟨by decide, zvt_enum_parse_short_input _ [0x80] (by decide)⟩

end Zvt
